import Mathlib

/-!
Verification development for the batch STEP-to-AAS converter
(`batch_step_parser.py`, `batch_aas_from_stp.py`, `main.py`).

The Python sources are shallowly embedded: each Lean definition below mirrors
one Python function (or one loop of one Python function), at the level of the
already-extracted STEP records (the regex lexing of the STEP text itself is
orthogonal to every property treated here and is not modelled).  String keys
and identifiers stay `String`; Python `dict`s are modelled as association
lists with Python's insertion-order/last-value-wins semantics; mutation is
replaced by explicit state passing.
-/

/-- A STEP annotation record: the `name`/`description` pair extracted from a
`DESCRIPTIVE_REPRESENTATION_ITEM` (`extract_annotations_from_content`,
`batch_step_parser.py` lines 141-149).  The extracted Python dicts carry
exactly these two keys, so structural equality of `Ann` is exactly the
"(name, description) pair" equality used throughout the source. -/
structure Ann where
  name : String
  descr : String
deriving DecidableEq, Repr

/-- A component (`ComponentNode`, `batch_step_parser.py` lines 15-35),
restricted to the fields the verified claims touch.  `children`/`parent` are
not stored here: they are mutated only by `add_child`, and the whole mutation
history is replayed by `replay_children`/`replay_parent` below. -/
structure ComponentNode where
  product_id : String
  original_product_id : String
  name : String
  anns : List Ann
deriving DecidableEq, Repr

/-- One entry of `self.assembly_relationships`
(`extract_assembly_relationships_from_content`, lines 211-220): the pair of
*original* STEP product ids asserted by one `NEXT_ASSEMBLY_USAGE_OCCURRENCE`,
in document order.  The redundant name fields are dropped. -/
structure UsageRel where
  parent_product_id : String
  child_product_id : String
deriving DecidableEq, Repr

/-- The loop of `build_assembly_tree` (lines 374-378) that looks a component
up by its original product id: it scans `all_components.values()` and keeps
overwriting on a match, so the *last* matching component wins. -/
def find_by_orig (comps : List ComponentNode) (origId : String) : Option ComponentNode :=
  comps.foldl (fun acc c => if c.original_product_id = origId then some c else acc) none

/-- Resolution of one relationship inside `build_assembly_tree`
(lines 369-379): both endpoints are looked up by original product id and the
`add_child` call happens only when both are found.  The result is the
`(parent.product_id, child.product_id)` pair of the performed `add_child`. -/
def resolve_rel (comps : List ComponentNode) (r : UsageRel) : Option (String × String) :=
  match find_by_orig comps r.parent_product_id, find_by_orig comps r.child_product_id with
  | some p, some c => some (p.product_id, c.product_id)
  | _, _ => none

/-- The sequence of successful `add_child` calls performed by the main loop
of `build_assembly_tree` (lines 369-382), in document order, as
`(parent product_id, child product_id)` pairs. -/
def process_rels (comps : List ComponentNode) (rels : List UsageRel) : List (String × String) :=
  rels.foldl (fun acc r =>
    match resolve_rel comps r with
    | some e => acc ++ [e]
    | none => acc) []

/-- Replay of the `children` list of the node with product id `p` after the
`add_child` calls in `es`: `add_child` (lines 30-32) appends the child to
`self.children`, so the final list is the children of the events with parent
`p`, in event order. -/
def replay_children (es : List (String × String)) (p : String) : List String :=
  (es.filter (fun e => e.1 = p)).map (fun e => e.2)

/-- Replay of the `parent` pointer of the node with product id `c` after the
`add_child` calls in `es`: `add_child` overwrites `child.parent`, so the
final pointer is the parent of the *last* event with child `c` (or `None`). -/
def replay_parent (es : List (String × String)) (c : String) : Option String :=
  ((es.filter (fun e => e.2 = c)).map (fun e => e.1)).getLast?

/-- `parent_components`/`child_components` membership (lines 367-382): a pid
is in the parent (resp. child) set iff some performed `add_child` had it as
parent (resp. child). -/
def child_pids (es : List (String × String)) : List String :=
  es.map (fun e => e.2)

/-- The parent pids of the performed `add_child` calls. -/
def parent_pids (es : List (String × String)) : List String :=
  es.map (fun e => e.1)

/-- `root_candidates` (lines 383-384): components, in `all_components`
insertion order, whose pid is in `parent_components` but not in
`child_components`. -/
def root_candidates (comps : List ComponentNode) (rels : List UsageRel) : List ComponentNode :=
  let es := process_rels comps rels
  comps.filter (fun c => c.product_id ∈ parent_pids es ∧ c.product_id ∉ child_pids es)

/-- The outcome of `build_assembly_tree`: either an existing component is the
root, or a fresh virtual `SSI_Anlage_Root` node is created and the listed
pids become its direct children. -/
inductive TreeResult where
  | realRoot (rootPid : String)
  | virtualRoot (childPids : List String)
deriving DecidableEq, Repr

/-- `build_assembly_tree` (`batch_step_parser.py` lines 361-392).  With no
relationships at all, a virtual root adopts every component (lines 362-366).
Otherwise the relationships are replayed, and the first root candidate (a
parent that is nobody's child) becomes the root (lines 385-386); if there is
no candidate, a virtual root adopts every component that is nobody's child
(lines 387-392). -/
def build_assembly_tree (comps : List ComponentNode) (rels : List UsageRel) : TreeResult :=
  if rels.isEmpty then
    .virtualRoot (comps.map (fun c => c.product_id))
  else
    let es := process_rels comps rels
    match root_candidates comps rels with
    | c :: _ => .realRoot c.product_id
    | [] => .virtualRoot ((comps.filter (fun c => c.product_id ∉ child_pids es)).map (fun c => c.product_id))

/-- One Python `dict` assignment `d[k] = v`: an existing key keeps its
position and gets the new value, a new key is appended. -/
def dict_insert {α : Type} (d : List (String × α)) (k : String) (v : α) : List (String × α) :=
  if d.any (fun kv => kv.1 == k) then d.map (fun kv => if kv.1 == k then (kv.1, v) else kv)
  else d ++ [(k, v)]

/-- A Python `dict` built by inserting the listed pairs in order (this is the
semantics of the dict comprehensions and assignment loops in
`link_annotations_to_products_in_content`): insertion order is kept, the
last value for a repeated key wins. -/
def build_dict {α : Type} (l : List (String × α)) : List (String × α) :=
  l.foldl (fun d kv => dict_insert d kv.1 kv.2) []

/-- Python `d[k]` / `k in d` lookup on an association list (first binding;
after `build_dict` keys are unique). -/
def dict_find {α : Type} (d : List (String × α)) (k : String) : Option α :=
  (d.find? (fun kv => kv.1 == k)).map (fun kv => kv.2)

/-- `name`/`description` of one `PRODUCT` record. -/
structure ProductInfo where
  name : String
  descr : String
deriving DecidableEq, Repr

/-- The STEP records extracted from one file by the `re_*` regexes of
`BatchStepParser` (lines 64-75), in document order.  Unused captured fields
(record names, descriptions, context references) are dropped. -/
structure StepData where
  products : List (String × ProductInfo)
  anns : List (String × Ann)
  reprs : List (String × List String)
  prop_def_reprs : List (String × String × String)
  prop_defs : List (String × String)
  prod_defs : List (String × String)
  formations : List (String × String)
  usages : List (String × String)
deriving DecidableEq, Repr

/-- `extract_products_from_content` (lines 130-139): a dict keyed by product
id; a repeated id keeps its first position with the last value. -/
def products_dict (d : StepData) : List (String × ProductInfo) :=
  build_dict d.products

/-- `extract_annotations_from_content` (lines 141-149) as a dict keyed by the
record id. -/
def anns_dict (d : StepData) : List (String × Ann) :=
  build_dict d.anns

/-- The `repr_to_annotations` dict (lines 158-164): for every
`REPRESENTATION`, the item references that are annotation record ids; only
representations with at least one such item are entered. -/
def repr_to_anns (d : StepData) : List (String × List String) :=
  build_dict (d.reprs.filterMap (fun r =>
    let annsIn := r.2.filter (fun i => (anns_dict d).any (fun kv => kv.1 == i))
    if annsIn.isEmpty then none else some (r.1, annsIn)))

/-- `prod_def_to_formation` (line 165). -/
def prod_def_to_formation (d : StepData) : List (String × String) :=
  build_dict d.prod_defs

/-- `formation_to_product` (line 166). -/
def formation_to_product (d : StepData) : List (String × String) :=
  build_dict d.formations

/-- `prop_def_to_prod_def` (line 167). -/
def prop_def_to_prod_def (d : StepData) : List (String × String) :=
  build_dict d.prop_defs

/-- The `repr_to_product` dict (lines 168-176): each
`PROPERTY_DEFINITION_REPRESENTATION` whose representation carries
annotations is chased through `PROPERTY_DEFINITION`, `PRODUCT_DEFINITION`
and the formation down to a known product. -/
def repr_to_product (d : StepData) : List (String × String) :=
  build_dict (d.prop_def_reprs.filterMap (fun t =>
    if (repr_to_anns d).any (fun kv => kv.1 == t.2.2) then
      match dict_find (prop_def_to_prod_def d) t.2.1 with
      | none => none
      | some prodDefId =>
        match dict_find (prod_def_to_formation d) prodDefId with
        | none => none
        | some formationId =>
          match dict_find (formation_to_product d) formationId with
          | none => none
          | some productId =>
            if (products_dict d).any (fun kv => kv.1 == productId) then some (t.2.2, productId)
            else none
    else none))

/-- One `product_annotations[k].extend(vs)` on the `defaultdict(list)`
(line 152): appends to the existing entry or creates a new one. -/
def dict_append (dl : List (String × List Ann)) (k : String) (vs : List Ann) : List (String × List Ann) :=
  if dl.any (fun kv => kv.1 == k) then dl.map (fun kv => if kv.1 == k then (kv.1, kv.2 ++ vs) else kv)
  else dl ++ [(k, vs)]

/-- `link_annotations_to_products_in_content` (lines 151-194): the final loop
(lines 177-182) appends, per representation in dict order, every linked
annotation record to the product's list.  The `enable_annotation_fallback`
branch (lines 183-193) is off by default (line 45) and never enabled by
`main.py`, so it is not modelled. -/
def link_anns_to_products (d : StepData) : List (String × List Ann) :=
  (repr_to_anns d).foldl (fun acc kv =>
    match dict_find (repr_to_product d) kv.1 with
    | none => acc
    | some pid => dict_append acc pid (kv.2.filterMap (fun a => dict_find (anns_dict d) a))) []

/-- `f"P{index:05d}"` (line 269): decimal digits, zero-padded to width 5. -/
def format_pid (index : Nat) : String :=
  let s := Nat.repr index
  "P" ++ String.mk (List.replicate (5 - s.length) '0') ++ s

/-- The component-creation loop of `process_main_assembly` (lines 260-288):
one `ComponentNode` per entry of the products dict, with `product_id`
`P{index:05d}` counting from 1, the original product id, the product name,
and a copy of its linked annotations (`product_annotations.get(pid, [])`).
The `node_type` classification and the bookkeeping dicts touch no verified
claim and are omitted. -/
def process_main_components (d : StepData) : List ComponentNode :=
  (products_dict d).enum.map (fun ik =>
    { product_id := format_pid (ik.1 + 1)
      original_product_id := ik.2.1
      name := ik.2.2.name
      anns := (dict_find (link_anns_to_products d) ik.2.1).getD [] })

/-- `resolve_product_from_definition` inside
`extract_assembly_relationships_from_content` (lines 204-210). -/
def resolve_product_from_definition (d : StepData) (prodDefId : String) : Option String :=
  match dict_find (prod_def_to_formation d) prodDefId with
  | none => none
  | some formationRef =>
    match dict_find (formation_to_product d) formationRef with
    | none => none
    | some productRef =>
      if (products_dict d).any (fun kv => kv.1 == productRef) then some productRef else none

/-- `extract_assembly_relationships_from_content` (lines 196-220): every
`NEXT_ASSEMBLY_USAGE_OCCURRENCE` whose two product definitions resolve to
known products contributes one relationship, in document order.  The
`if parent_product_id and child_product_id` guard is Python truthiness, so a
(hypothetical) empty-string id is also rejected. -/
def extract_assembly_rels (d : StepData) : List UsageRel :=
  d.usages.filterMap (fun u =>
    match resolve_product_from_definition d u.1, resolve_product_from_definition d u.2 with
    | some p, some c => if p ≠ "" ∧ c ≠ "" then some ⟨p, c⟩ else none
    | _, _ => none)

/-- Python `str.strip()`: drop whitespace from both ends. -/
def py_strip (s : String) : String :=
  String.mk (((s.data.dropWhile Char.isWhitespace).reverse.dropWhile Char.isWhitespace).reverse)

/-- `remove_solidworks_suffix` (lines 291-292 and 304-305):
`re.sub(r'-\d+$', '', name.strip())` — strip, then drop one trailing group
of a dash followed by at least one ASCII digit. -/
def remove_solidworks_suffix (s : String) : String :=
  let t := (py_strip s).data
  let rev := t.reverse
  let ds := rev.takeWhile Char.isDigit
  match rev.drop ds.length with
  | '-' :: rest => if ds.isEmpty then String.mk t else String.mk rest.reverse
  | _ => String.mk t

/-- Python `str.upper()`, modelled for the ASCII range (every name compared
through the index in the claims below is ASCII). -/
def py_upper (s : String) : String :=
  String.mk (s.data.map Char.toUpper)

/-- The normalized index key of a name: `remove_solidworks_suffix(x).upper()`
(lines 295, 332-335). -/
def clean_name_key (s : String) : String :=
  py_upper (remove_solidworks_suffix s)

/-- Lookup in `component_name_index` (lines 293-298): the index keeps the
*first* component per normalized name, so lookup finds the first component
whose cleaned name equals the key, and yields its pid. -/
def component_name_index_lookup (comps : List ComponentNode) (key : String) : Option String :=
  (comps.find? (fun c => clean_name_key c.name == key)).map (fun c => c.product_id)

/-- One auxiliary STEP document as seen by
`supplement_annotations_from_files`: the path-equality skip (line 307), the
empty-content skip (lines 310-312), the token pre-scan skip (line 314), the
file base name (line 331) and the extracted records. -/
structure AuxDoc where
  is_main : Bool
  content_empty : Bool
  has_ann_token : Bool
  file_base : String
  data : StepData
deriving DecidableEq, Repr

/-- `all_file_annotations` (lines 324-326): the concatenation of the linked
annotation lists of all products of the file, in dict order. -/
def all_file_anns (d : StepData) : List Ann :=
  ((link_anns_to_products d).map (fun kv => kv.2)).flatten

/-- The merge loop of `supplement_annotations_from_files` (lines 343-351):
each candidate is appended unless an entry with the same
`(name, description)` pair is already on the component's (growing) list. -/
def merge_file_anns (existing : List Ann) (cands : List Ann) : List Ann :=
  cands.foldl (fun acc a =>
    if acc.any (fun e => e.name == a.name && e.descr == a.descr) then acc else acc ++ [a]) existing

/-- One iteration of `supplement_annotations_from_files` (lines 306-359).
The `candidate != self.assembly_tree` guard (line 338) always passes during
`parse_batch`, because `build_assembly_tree` runs only afterwards and
`self.assembly_tree` is still `None`; it is therefore not modelled.  Only
the matched component's annotation list changes. -/
def supplement_one (comps : List ComponentNode) (a : AuxDoc) : List ComponentNode :=
  if a.is_main then comps
  else if a.content_empty then comps
  else if !a.has_ann_token then comps
  else if (anns_dict a.data).isEmpty then comps
  else
    let fileAnns := all_file_anns a.data
    if fileAnns.isEmpty then comps
    else
      match component_name_index_lookup comps (clean_name_key a.file_base) with
      | none => comps
      | some mpid =>
        comps.map (fun c =>
          if c.product_id == mpid then { c with anns := merge_file_anns c.anns fileAnns } else c)

/-- `supplement_annotations_from_files` over the discovered files in order
(lines 302-359). -/
def supplement_all (comps : List ComponentNode) (auxs : List AuxDoc) : List ComponentNode :=
  auxs.foldl supplement_one comps

/-- The primary document: whether `load_file_content` came back empty
(lines 247-249) and the extracted records. -/
structure PrimaryDoc where
  content_empty : Bool
  data : StepData
deriving DecidableEq, Repr

/-- `process_main_assembly` (lines 245-300): fails only on empty content;
otherwise it builds the components (there is *no* check that any product was
extracted) and reports success. -/
def process_main_assembly_comps (doc : PrimaryDoc) : Option (List ComponentNode) :=
  if doc.content_empty then none
  else some (process_main_components doc.data)

/-- `parse_batch` (lines 431-464): fails when no STEP files were found, when
the main assembly file is missing, or when `process_main_assembly` fails;
otherwise it supplements annotations from the auxiliary documents and then
builds the assembly tree.  The result is the finished tree shape. -/
def parse_batch (step_files_nonempty main_file_exists : Bool)
    (doc : PrimaryDoc) (auxs : List AuxDoc) : Option TreeResult :=
  if !step_files_nonempty then none
  else if !main_file_exists then none
  else
    match process_main_assembly_comps doc with
    | none => none
    | some comps =>
      some (build_assembly_tree (supplement_all comps auxs) (extract_assembly_rels doc.data))

/-- The replacement table of `replace_str` (`batch_aas_from_stp.py`
lines 25-35), in dict order.  All patterns are nonempty. -/
def replace_pairs : List (String × String) :=
  [("ä", "ae"), ("Ä", "Ae"), ("ö", "oe"), ("Ö", "Oe"), ("ü", "ue"), ("Ü", "Ue"),
   ("°C", "degreeCelsius"),
   (" ", "_"), ("-", "_"), (".", ""), ("/", ""), ("#", ""),
   ("%", "percentage"), (",", ""), ("(", ""), (")", ""), ("[", ""), ("]", "")]

/-- Python `str.replace` on character lists: replace every non-overlapping
occurrence of `pat`, scanning left to right.  The fuel is the remaining
length; each step consumes at least one character for nonempty `pat` (and
every pattern used here is nonempty), so the fuel never runs out. -/
def replace_chars (pat rep : List Char) : Nat → List Char → List Char
  | 0, s => s
  | _ + 1, [] => []
  | fuel + 1, c :: rest =>
    if pat ≠ [] ∧ (c :: rest).take pat.length = pat then
      rep ++ replace_chars pat rep fuel ((c :: rest).drop pat.length)
    else
      c :: replace_chars pat rep fuel rest

/-- Python `s.replace(pat, rep)` for nonempty `pat`. -/
def py_replace (s pat rep : String) : String :=
  String.mk (replace_chars pat.data rep.data s.data.length s.data)

/-- `replace_str` (`batch_aas_from_stp.py` lines 25-35): apply the table
entries one after the other, each over the whole current string. -/
def replace_str (s : String) : String :=
  replace_pairs.foldl (fun acc p => py_replace acc p.1 p.2) s

/-- Python's Unicode-aware `str.isalpha`, modelled exactly on the letters
that occur in this repository's data: ASCII letters plus the German letters
of the replacement table.  (Python would also accept further Unicode
letters; no claim below depends on them.) -/
def py_isalpha (c : Char) : Bool :=
  c.isAlpha || c ∈ ['ä', 'ö', 'ü', 'Ä', 'Ö', 'Ü', 'ß']

/-- A character admitted by the class `[A-Za-z0-9_]` of the final
`re.sub` in `check_id_short` (line 42). -/
def id_char_ok (c : Char) : Bool :=
  c.isAlpha || c.isDigit || c == '_'

/-- `re.sub(r"[^A-Za-z0-9_]", "_", s)` (line 42): every character outside
the class becomes one underscore. -/
def sanitize_id_chars (s : String) : String :=
  String.mk (s.data.map (fun c => if id_char_ok c then c else '_'))

/-- `check_id_short` (`batch_aas_from_stp.py` lines 37-43).  `id_short[0]`
raises `IndexError` on the empty string, modelled as `none`.  Otherwise: if
the first character is a letter the replacement table is applied, else an
`X` is prefixed; finally every disallowed character becomes `_`. -/
def check_id_short (s : String) : Option String :=
  match s.data with
  | [] => none
  | c :: _ =>
    some (sanitize_id_chars (if py_isalpha c then replace_str s else "X" ++ s))

/-- `common_props` (line 49): the reserved structural labels. -/
def common_props : List String :=
  ["Type", "Level", "Product_ID", "Source_File", "Volume", "Surface_Area"]

/-- The `self.used_ids` set of `BatchAASFromSTP` (line 23).  Only membership
is ever observed, so a list suffices. -/
structure AllocState where
  used_ids : List String
deriving DecidableEq, Repr

/-- Python truthiness of `context_suffix` (line 53): not `None` and not the
empty string. -/
def ctx_truthy : Option String → Bool
  | none => false
  | some s => s ≠ ""

/-- The `while unique_id in self.used_ids` loop (lines 58-61): try
`f"{clean_id}_{counter}"` for `counter = 1, 2, ...` until a free identifier
is found.  The fuel bounds the iterations; it never runs out on the runs
verified below, and a `none` result is only ever produced alongside an
explicit hypothesis that it is not. -/
def alloc_loop (used : List String) (cleanId : String) : Nat → String → Nat → Option String
  | 0, uid, _ => if uid ∈ used then none else some uid
  | fuel + 1, uid, k =>
    if uid ∈ used then alloc_loop used cleanId fuel (cleanId ++ "_" ++ Nat.repr k) (k + 1)
    else some uid

/-- `get_unique_id` (`batch_aas_from_stp.py` lines 45-63).  The sanitized
label falls back to `"Component"` when empty; a sanitized label among
`common_props` is returned as-is without touching the ledger; otherwise, on
collision, one retry with the sanitized context suffix appended (only when
the suffix is truthy), then the numeric-suffix loop; the returned identifier
is entered into the ledger.  `none` models the `IndexError` escaping from
`check_id_short('')`. -/
def get_unique_id (st : AllocState) (baseId : String) (ctxSuffix : Option String) :
    Option (String × AllocState) :=
  match check_id_short baseId with
  | none => none
  | some c0 =>
    let cleanId := if c0 = "" then "Component" else c0
    if cleanId ∈ common_props then some (cleanId, st)
    else
      let uid0 :=
        if cleanId ∈ st.used_ids ∧ ctx_truthy ctxSuffix then
          match ctxSuffix with
          | some sfx =>
            match check_id_short sfx with
            | some sufClean =>
              let cand := cleanId ++ "_" ++ sufClean
              if cand ∈ st.used_ids then cleanId else cand
            | none => cleanId
          | none => cleanId
        else cleanId
      match alloc_loop st.used_ids cleanId (st.used_ids.length + 2) uid0 1 with
      | none => none
      | some uid => some (uid, ⟨st.used_ids ++ [uid]⟩)

/-- The sanitized-with-fallback label of a call, i.e. the `clean_id` of
lines 46-48. -/
def cleaned_label (baseId : String) : Option String :=
  (check_id_short baseId).map (fun c => if c = "" then "Component" else c)

/-- Whether a call with this raw label takes the reserved early-return
branch of line 50. -/
def is_reserved_label (baseId : String) : Bool :=
  match cleaned_label baseId with
  | some c => decide (c ∈ common_props)
  | none => false

/-- One allocator call: the requested label and the optional context
suffix. -/
structure AllocReq where
  base_id : String
  ctx : Option String
deriving DecidableEq, Repr

/-- A sequence of `get_unique_id` calls within one run, threading
`self.used_ids`.  A raised `IndexError` aborts the whole run (`none`). -/
def run_alloc (st : AllocState) : List AllocReq → Option (List String × AllocState)
  | [] => some ([], st)
  | r :: rest =>
    match get_unique_id st r.base_id r.ctx with
    | none => none
    | some (uid, st') =>
      match run_alloc st' rest with
      | none => none
      | some (uids, st'') => some (uid :: uids, st'')

/-- The allocation performed for a component's SMC name by
`create_component_smc` (`batch_aas_from_stp.py` line 158):
`get_unique_id(component.name, context_suffix=component.product_id)`. -/
def create_component_smc_name (st : AllocState) (c : ComponentNode) :
    Option (String × AllocState) :=
  get_unique_id st c.name (some c.product_id)

/-- All characters of the string are ASCII-safe identifier characters. -/
def ascii_safe (s : String) : Bool :=
  s.data.all id_char_ok

/-- The phases of one `parse_batch` run (`batch_step_parser.py`
lines 431-464), as observable events:
`records` — products, annotation records, file info and their linking,
extracted from the primary document (lines 250-253 inside
`process_main_assembly`, called at line 442);
`edges` — `extract_assembly_relationships_from_content` on the primary
document (line 258, still inside `process_main_assembly`);
`auxDoc i` — the `i`-th iteration of the loop of
`supplement_annotations_from_files` (line 444, loop at line 306), in
discovery order;
`treeBuild` — `build_assembly_tree` (line 451). -/
inductive PhaseEv where
  | records
  | edges
  | auxDoc (i : Nat)
  | treeBuild
deriving DecidableEq, Repr

/-- The order in which the phases of `parse_batch` execute on a successful
run over `numAux` auxiliary documents: the primary document's records and
edges first, then every auxiliary document in discovery order, then the
tree build. -/
def parse_batch_trace (numAux : Nat) : List PhaseEv :=
  [PhaseEv.records, PhaseEv.edges] ++ (List.range numAux).map PhaseEv.auxDoc ++ [PhaseEv.treeBuild]

/-- `a` occurs strictly before `b` in the list `l`. -/
def phase_precedes (l : List PhaseEv) (a b : PhaseEv) : Prop :=
  ∃ i j : Fin l.length, i.val < j.val ∧ l.get i = a ∧ l.get j = b

/-! ### Concrete instances used in counterexamples and witnesses -/

/-- Three components as created from a primary document whose resolved edge
list asserts two different parents for the second one. -/
def c2_comps : List ComponentNode :=
  [⟨"P00001", "1", "A", []⟩, ⟨"P00002", "2", "B", []⟩, ⟨"P00003", "3", "C", []⟩]

/-- Document-order edges (A→B) then (C→B). -/
def c2_rels : List UsageRel :=
  [⟨"1", "2"⟩, ⟨"3", "2"⟩]

/-- A primary document carrying three products A, B, C and two usage
occurrences asserting A→B and then C→B. -/
def c1_cex_doc : PrimaryDoc :=
  { content_empty := false
    data :=
      { products := [("1", ⟨"A", ""⟩), ("2", ⟨"B", ""⟩), ("3", ⟨"C", ""⟩)]
        anns := []
        reprs := []
        prop_def_reprs := []
        prop_defs := []
        prod_defs := [("51", "61"), ("52", "62"), ("53", "63")]
        formations := [("61", "1"), ("62", "2"), ("63", "3")]
        usages := [("51", "52"), ("53", "52")] } }

/-- Two components linked by a single edge A→B: a well-formed one-edge tree. -/
def c1w_comps : List ComponentNode :=
  [⟨"P00001", "1", "A", []⟩, ⟨"P00002", "2", "B", []⟩]

/-- The single edge A→B. -/
def c1w_rels : List UsageRel :=
  [⟨"1", "2"⟩]

/-- Four components with two disjoint edges A→B and C→D: two root
candidates. -/
def c3_comps : List ComponentNode :=
  [⟨"P00001", "1", "A", []⟩, ⟨"P00002", "2", "B", []⟩,
   ⟨"P00003", "3", "C", []⟩, ⟨"P00004", "4", "D", []⟩]

/-- Edges A→B and C→D. -/
def c3_rels : List UsageRel :=
  [⟨"1", "2"⟩, ⟨"3", "4"⟩]

/-- Two components forming a two-cycle A→B, B→A: no root candidate. -/
def c3w_comps : List ComponentNode :=
  [⟨"P00001", "1", "A", []⟩, ⟨"P00002", "2", "B", []⟩]

/-- The cyclic edges A→B and B→A. -/
def c3w_rels : List UsageRel :=
  [⟨"1", "2"⟩, ⟨"2", "1"⟩]

/-- A primary document with nonempty content but zero extractable
products. -/
def c4_doc : PrimaryDoc :=
  { content_empty := false
    data :=
      { products := [], anns := [], reprs := [], prop_def_reprs := []
        prop_defs := [], prod_defs := [], formations := [], usages := [] } }

/-- A primary document with one product carrying two distinct
`DESCRIPTIVE_REPRESENTATION_ITEM` records with the identical
`("Torque", "10 Nm")` pair, both linked to the product through one
representation and a full property-definition chain. -/
def c5_dup_doc : StepData :=
  { products := [("10", ⟨"Part", "d"⟩)]
    anns := [("20", ⟨"Torque", "10 Nm"⟩), ("21", ⟨"Torque", "10 Nm"⟩)]
    reprs := [("30", ["20", "21"])]
    prop_def_reprs := [("40", "41", "30")]
    prop_defs := [("41", "50")]
    prod_defs := [("50", "60")]
    formations := [("60", "10")]
    usages := [] }

/-- One component named `Bearing`, not yet annotated. -/
def c6w_comps : List ComponentNode :=
  [⟨"P00001", "10", "Bearing", []⟩]

/-- The records of an auxiliary document contributing the single linked
pair `("Torque", "10 Nm")` to product `Bearing`. -/
def c6w_data : StepData :=
  { products := [("10", ⟨"Bearing", ""⟩)]
    anns := [("20", ⟨"Torque", "10 Nm"⟩)]
    reprs := [("30", ["20"])]
    prop_def_reprs := [("40", "41", "30")]
    prop_defs := [("41", "50")]
    prod_defs := [("50", "60")]
    formations := [("60", "10")]
    usages := [] }

/-- The auxiliary document `Bearing-1.stp` carrying `c6w_data`. -/
def c6w_aux : AuxDoc :=
  { is_main := false, content_empty := false, has_ann_token := true
    file_base := "Bearing-1", data := c6w_data }

/-! ### Theorems -/

/-- C9: allocating identifiers for the labels `"Außenring-1"` and
`"Aussenring"` in the same run produces two distinct identifiers, each
consisting only of ASCII-safe characters (`ß` falls through the replacement
table and is collapsed to `_` by the final character sweep, `-` becomes
`_`). -/
theorem c9_umlaut_labels_distinct_ascii_safe :
    run_alloc ⟨[]⟩ [⟨"Außenring-1", none⟩, ⟨"Aussenring", none⟩]
      = some (["Au_enring_1", "Aussenring"], ⟨["Au_enring_1", "Aussenring"]⟩)
    ∧ "Au_enring_1" ≠ "Aussenring"
    ∧ ascii_safe "Au_enring_1" ∧ ascii_safe "Aussenring" := by decide

/-- C10: for the empty-string label the allocator raises (`id_short[0]`
in `check_id_short` indexes an empty string) instead of returning an
identifier — the `"Component"` fallback of `get_unique_id` sits *after* the
raising call and is never reached — and therefore serializing a component
whose name is empty fails. -/
theorem c10_empty_label_raises (st : AllocState) (ctx : Option String)
    (pid orig : String) (anns : List Ann) :
    check_id_short "" = none
    ∧ get_unique_id st "" ctx = none
    ∧ create_component_smc_name st ⟨pid, orig, "", anns⟩ = none :=
  ⟨rfl, rfl, rfl⟩

/-- C1 (counterexample): a primary document with products A, B, C and the
resolved edges (A→B), (C→B) makes the whole pipeline succeed, yet in the
finished structure node B sits in the children lists of the two different
parents A and C. -/
theorem c1_counterexample :
    parse_batch true true c1_cex_doc [] = some (.realRoot "P00001")
    ∧ "P00001" ≠ "P00003"
    ∧ replay_children
        (process_rels (process_main_components c1_cex_doc.data)
          (extract_assembly_rels c1_cex_doc.data)) "P00001" = ["P00002"]
    ∧ replay_children
        (process_rels (process_main_components c1_cex_doc.data)
          (extract_assembly_rels c1_cex_doc.data)) "P00003" = ["P00002"] := by
  decide

/-- C2 (counterexample): with the document-order edges (A→B) then (C→B), it
is *not* the case that B's parent is A and C ends up with no children: the
second `add_child` overwrites B's parent pointer to C and appends B to C's
children list, and no conflict record exists anywhere in the parser state. -/
theorem c2_counterexample :
    ¬ (replay_parent (process_rels c2_comps c2_rels) "P00002" = some "P00001"
       ∧ replay_children (process_rels c2_comps c2_rels) "P00003" = []) := by
  decide

/-- C3 (counterexample): with the disjoint edges A→B and C→D there are two
root candidates, yet `build_assembly_tree` does not synthesize a virtual
root: it silently picks the first candidate A. -/
theorem c3_counterexample :
    (root_candidates c3_comps c3_rels).length = 2
    ∧ build_assembly_tree c3_comps c3_rels = .realRoot "P00001"
    ∧ ∀ l, build_assembly_tree c3_comps c3_rels ≠ .virtualRoot l := by
  refine ⟨by decide, by decide, ?_⟩
  intro l h
  rw [show build_assembly_tree c3_comps c3_rels = .realRoot "P00001" from by decide] at h
  exact TreeResult.noConfusion h

/-- C4 (counterexample): a primary document with nonempty content but zero
extractable products is *not* a hard failure: `parse_batch` succeeds and
produces a (virtual-root) assembly tree. -/
theorem c4_counterexample :
    c4_doc.content_empty = false
    ∧ products_dict c4_doc.data = []
    ∧ parse_batch true true c4_doc [] = some (.virtualRoot []) := by
  decide

/-- C5 (counterexample): primary-document processing itself can install two
annotations with the identical ("Torque", "10 Nm") pair on one component —
the duplicate check exists only in the auxiliary-document merge. -/
theorem c5_counterexample :
    ¬ (∀ c ∈ process_main_components c5_dup_doc, c.anns.Nodup) := by
  decide

/-- C7 (counterexample): on a run with one auxiliary document the tree
skeleton is built *after* the auxiliary document is processed, not before. -/
theorem c7_counterexample :
    parse_batch_trace 1 = [.records, .edges, .auxDoc 0, .treeBuild]
    ∧ ¬ phase_precedes (parse_batch_trace 1) .treeBuild (.auxDoc 0) := by
  refine ⟨by decide, ?_⟩
  unfold phase_precedes
  decide

/-- C8 (counterexample): the label `"Type."` is outside the reserved
structural-label set, yet two calls requesting it return the *same*
identifier `"Type"` (it sanitizes into the reserved set and bypasses the
uniqueness ledger). -/
theorem c8_counterexample :
    "Type." ∉ common_props
    ∧ run_alloc ⟨[]⟩ [⟨"Type.", none⟩, ⟨"Type.", none⟩]
        = some (["Type", "Type"], ⟨[]⟩) := by
  decide

/-- With no relationships there are no resolved edges and hence no root
candidates. -/
theorem root_candidates_nil (comps : List ComponentNode) :
    root_candidates comps [] = [] := by
  simp [root_candidates, process_rels, parent_pids, child_pids]

/-- C3 (amended): `build_assembly_tree` synthesizes a virtual root exactly
when *no* component is a parent-and-never-a-child (in particular when there
are no resolved relationships at all), and then attaches every component
that is nobody's child; when one or more candidates exist — even several,
as with disconnected data — the *first* candidate becomes the root and no
virtual root is created. -/
theorem c3_amended (comps : List ComponentNode) (rels : List UsageRel) :
    (root_candidates comps rels = [] →
      build_assembly_tree comps rels
        = .virtualRoot ((comps.filter
            (fun c => c.product_id ∉ child_pids (process_rels comps rels))).map
              (fun c => c.product_id)))
    ∧ (∀ c cs, root_candidates comps rels = c :: cs →
        build_assembly_tree comps rels = .realRoot c.product_id) := by
  constructor
  · intro h
    by_cases hre : rels.isEmpty
    · have hrnil : rels = [] := by
        cases rels with
        | nil => rfl
        | cons a t => simp at hre
      subst hrnil
      simp [build_assembly_tree, process_rels, child_pids]
    · simp [build_assembly_tree, hre, h]
  · intro c cs h
    have hre : rels.isEmpty = false := by
      cases rels with
      | nil => rw [root_candidates_nil] at h; exact List.noConfusion h
      | cons a t => rfl
    simp [build_assembly_tree, hre, h]

/-- A run over an empty component list never changes it: filename matching
finds no component. -/
theorem supplement_one_nil (a : AuxDoc) : supplement_one [] a = [] := by
  unfold supplement_one component_name_index_lookup
  simp

/-- Iterating auxiliary documents over an empty component list keeps it
empty. -/
theorem supplement_all_nil (auxs : List AuxDoc) : supplement_all [] auxs = [] := by
  induction auxs with
  | nil => rfl
  | cons a t ih =>
    show supplement_all (supplement_one [] a) t = []
    rw [supplement_one_nil]
    exact ih

/-- With an empty products dict no usage occurrence resolves. -/
theorem extract_assembly_rels_no_products (d : StepData)
    (h : products_dict d = []) : extract_assembly_rels d = [] := by
  have hres : ∀ k, resolve_product_from_definition d k = none := by
    intro k
    unfold resolve_product_from_definition
    rw [h]
    cases dict_find (prod_def_to_formation d) k with
    | none => rfl
    | some formationRef =>
      simp only []
      cases dict_find (formation_to_product d) formationRef with
      | none => rfl
      | some productRef => simp
  unfold extract_assembly_rels
  rw [List.filterMap_eq_nil_iff]
  intro u _
  rw [hres u.1, hres u.2]

/-- C4 (amended): the hard failures of a run are a missing STEP file set, a
missing main assembly file, and an empty (unreadable) primary document.
Zero extractable products is *not* one of them: the run still succeeds and
produces a childless virtual-root tree. -/
theorem c4_amended (sf mf : Bool) (doc : PrimaryDoc) (auxs : List AuxDoc) :
    ((sf = false ∨ mf = false ∨ doc.content_empty = true) →
      parse_batch sf mf doc auxs = none)
    ∧ (sf = true → mf = true → doc.content_empty = false →
      products_dict doc.data = [] →
      parse_batch sf mf doc auxs = some (.virtualRoot [])) := by
  constructor
  · rintro (rfl | rfl | h)
    · simp [parse_batch]
    · cases sf <;> simp [parse_batch]
    · cases sf <;> cases mf <;>
        simp [parse_batch, process_main_assembly_comps, h]
  · rintro rfl rfl hct hpr
    have hcomps : process_main_components doc.data = [] := by
      simp [process_main_components, hpr]
    simp [parse_batch, process_main_assembly_comps, hct, hcomps,
      supplement_all_nil, extract_assembly_rels_no_products doc.data hpr,
      build_assembly_tree]

/-- The Boolean duplicate check of the merge loop tests exactly membership
of the candidate's `(name, description)` pair. -/
theorem ann_check_iff (acc : List Ann) (a : Ann) :
    (acc.any (fun e => e.name == a.name && e.descr == a.descr) = true) ↔ a ∈ acc := by
  simp only [List.any_eq_true, Bool.and_eq_true, beq_iff_eq]
  constructor
  · rintro ⟨e, he, h1, h2⟩
    cases a
    cases e
    simp_all
  · intro h
    exact ⟨a, h, rfl, rfl⟩

/-- Unfolding one step of the merge loop. -/
theorem merge_file_anns_cons (ex : List Ann) (a : Ann) (t : List Ann) :
    merge_file_anns ex (a :: t)
      = merge_file_anns (if a ∈ ex then ex else ex ++ [a]) t := by
  unfold merge_file_anns
  simp only [List.foldl_cons]
  congr 1
  by_cases h : a ∈ ex
  · rw [if_pos ((ann_check_iff ex a).mpr h), if_pos h]
  · rw [if_neg (fun hc => h ((ann_check_iff ex a).mp hc)), if_neg h]

/-- Membership after a merge: exactly the union of the two sides. -/
theorem mem_merge_file_anns (x : Ann) :
    ∀ (cs ex : List Ann), x ∈ merge_file_anns ex cs ↔ x ∈ ex ∨ x ∈ cs := by
  intro cs
  induction cs with
  | nil => intro ex; simp [merge_file_anns]
  | cons a t ih =>
    intro ex
    rw [merge_file_anns_cons]
    by_cases h : a ∈ ex
    · rw [if_pos h, ih]
      constructor
      · rintro (hx | hx)
        · exact Or.inl hx
        · exact Or.inr (List.mem_cons_of_mem a hx)
      · rintro (hx | hx)
        · exact Or.inl hx
        · rcases List.mem_cons.mp hx with rfl | hx
          · exact Or.inl h
          · exact Or.inr hx
    · rw [if_neg h, ih]
      simp only [List.mem_append, List.mem_cons, List.not_mem_nil, or_false]
      constructor
      · rintro ((hx | hx) | hx)
        · exact Or.inl hx
        · exact Or.inr (Or.inl hx)
        · exact Or.inr (Or.inr hx)
      · rintro (hx | hx | hx)
        · exact Or.inl (Or.inl hx)
        · exact Or.inl (Or.inr hx)
        · exact Or.inr hx

/-- Merging candidates that are all already present is a no-op. -/
theorem merge_file_anns_eq_self (ex : List Ann) :
    ∀ (cs : List Ann), (∀ x ∈ cs, x ∈ ex) → merge_file_anns ex cs = ex := by
  intro cs
  induction cs with
  | nil => intro _; rfl
  | cons a t ih =>
    intro h
    rw [merge_file_anns_cons, if_pos (h a (List.mem_cons_self a t))]
    exact ih (fun x hx => h x (List.mem_cons_of_mem a hx))

/-- Merging the same candidate list twice equals merging it once. -/
theorem merge_file_anns_idem (ex cs : List Ann) :
    merge_file_anns (merge_file_anns ex cs) cs = merge_file_anns ex cs :=
  merge_file_anns_eq_self _ cs (fun x hx => (mem_merge_file_anns x cs ex).mpr (Or.inr hx))

/-- Multiplicity after a merge: existing copies are kept untouched, and one
copy is added exactly when the pair was absent and occurs among the
candidates. -/
theorem count_merge_file_anns (x : Ann) :
    ∀ (cs ex : List Ann),
      (merge_file_anns ex cs).count x
        = ex.count x + (if ex.count x = 0 ∧ x ∈ cs then 1 else 0) := by
  intro cs
  induction cs with
  | nil => intro ex; simp [merge_file_anns]
  | cons a t ih =>
    intro ex
    rw [merge_file_anns_cons]
    by_cases h : a ∈ ex
    · rw [if_pos h, ih]
      by_cases hx0 : ex.count x = 0
      · have hxa : x ≠ a := by
          intro he
          subst he
          exact absurd hx0 (by simpa [List.count_eq_zero] using h)
        simp [hx0, List.mem_cons, hxa]
      · simp [hx0]
    · rw [if_neg h, ih]
      have hcnt : (ex ++ [a]).count x = ex.count x + (if a = x then 1 else 0) := by
        simp [List.count_append, List.count_singleton', beq_iff_eq]
      by_cases hxa : a = x
      · subst hxa
        have h0 : ex.count a = 0 := List.count_eq_zero.mpr h
        rw [hcnt]
        simp [h0, List.mem_cons]
      · rw [hcnt, if_neg hxa]
        have hxa2 : x ≠ a := fun hh => hxa hh.symm
        by_cases hx0 : ex.count x = 0
        · simp [hx0, List.mem_cons, hxa2]
        · simp [hx0]

/-- C5 (amended): the auxiliary-document merge never *introduces* a
duplicate `(name, description)` pair: a component whose annotation list is
duplicate-free stays duplicate-free through any merge.  (The primary
document itself can install duplicates — see the counterexample.) -/
theorem c5_amended (ex cs : List Ann) (h : ex.Nodup) :
    (merge_file_anns ex cs).Nodup := by
  rw [List.nodup_iff_count_le_one] at h ⊢
  intro x
  rw [count_merge_file_anns]
  have := h x
  split_ifs with hc
  · omega
  · omega

/-- Witness for the amended C3 at the cyclic input A→B, B→A: no candidate
qualifies and a virtual root is synthesized (here with no children, since
both components are somebody's child). -/
theorem c3_amended_witness :
    root_candidates c3w_comps c3w_rels = []
    ∧ build_assembly_tree c3w_comps c3w_rels
        = .virtualRoot ((c3w_comps.filter
            (fun c => c.product_id ∉ child_pids (process_rels c3w_comps c3w_rels))).map
              (fun c => c.product_id)) :=
  ⟨by decide, (c3_amended c3w_comps c3w_rels).1 (by decide)⟩

/-- Witness for the amended C4: a missing main assembly run fails, and the
zero-product document succeeds with a childless virtual root. -/
theorem c4_amended_witness :
    parse_batch false true c4_doc [] = none
    ∧ parse_batch true true c4_doc [] = some (.virtualRoot []) :=
  ⟨(c4_amended false true c4_doc []).1 (Or.inl rfl),
   (c4_amended true true c4_doc []).2 rfl rfl rfl (by decide)⟩

/-- Witness for the amended C5: merging two identical candidates into an
empty, duplicate-free list yields a duplicate-free list. -/
theorem c5_amended_witness :
    ([] : List Ann).Nodup
    ∧ (merge_file_anns [] [⟨"Torque", "10 Nm"⟩, ⟨"Torque", "10 Nm"⟩]).Nodup :=
  ⟨by decide, c5_amended [] _ (by decide)⟩

/-- Every skip branch of `supplement_one` leaves the components unchanged. -/
theorem supplement_one_skip (x : List ComponentNode) (a : AuxDoc)
    (h : a.is_main = true ∨ a.content_empty = true ∨ a.has_ann_token = false
      ∨ (anns_dict a.data).isEmpty = true ∨ (all_file_anns a.data).isEmpty = true) :
    supplement_one x a = x := by
  unfold supplement_one
  rcases h with h | h | h | h | h <;> simp [h]

/-- On a non-skipped document, `supplement_one` is the filename match
followed by the merge on the matched component. -/
theorem supplement_one_active (comps : List ComponentNode) (a : AuxDoc)
    (hm : a.is_main = false) (hc : a.content_empty = false)
    (ht : a.has_ann_token = true) (ha : (anns_dict a.data).isEmpty = false)
    (hf : (all_file_anns a.data).isEmpty = false) :
    supplement_one comps a
      = match component_name_index_lookup comps (clean_name_key a.file_base) with
        | none => comps
        | some mpid => comps.map (fun c =>
            if c.product_id == mpid then
              { c with anns := merge_file_anns c.anns (all_file_anns a.data) }
            else c) := by
  unfold supplement_one
  simp [hm, hc, ht, ha, hf]

/-- The filename index only looks at names and pids, so a transformation
preserving both leaves every lookup unchanged. -/
theorem component_name_index_lookup_map (comps : List ComponentNode)
    (f : ComponentNode → ComponentNode)
    (hf : ∀ c, (f c).product_id = c.product_id ∧ (f c).name = c.name)
    (key : String) :
    component_name_index_lookup (comps.map f) key
      = component_name_index_lookup comps key := by
  unfold component_name_index_lookup
  rw [List.find?_map]
  have hpred : ((fun c => clean_name_key c.name == key) ∘ f)
      = (fun c => clean_name_key c.name == key) := by
    funext c
    simp [(hf c).2]
  rw [hpred]
  cases hfind : comps.find? (fun c => clean_name_key c.name == key) with
  | none => rfl
  | some c => simp [(hf c).1]

/-- Reprocessing the same auxiliary document is a no-op on the component
list. -/
theorem supplement_one_idem (comps : List ComponentNode) (a : AuxDoc) :
    supplement_one (supplement_one comps a) a = supplement_one comps a := by
  by_cases hm : a.is_main = true
  · rw [supplement_one_skip _ a (Or.inl hm), supplement_one_skip _ a (Or.inl hm)]
  · by_cases hc : a.content_empty = true
    · rw [supplement_one_skip _ a (Or.inr (Or.inl hc)),
        supplement_one_skip _ a (Or.inr (Or.inl hc))]
    · by_cases ht : a.has_ann_token = false
      · rw [supplement_one_skip _ a (Or.inr (Or.inr (Or.inl ht))),
          supplement_one_skip _ a (Or.inr (Or.inr (Or.inl ht)))]
      · by_cases ha : (anns_dict a.data).isEmpty = true
        · rw [supplement_one_skip _ a (Or.inr (Or.inr (Or.inr (Or.inl ha)))),
            supplement_one_skip _ a (Or.inr (Or.inr (Or.inr (Or.inl ha))))]
        · by_cases hfa : (all_file_anns a.data).isEmpty = true
          · rw [supplement_one_skip _ a (Or.inr (Or.inr (Or.inr (Or.inr hfa)))),
              supplement_one_skip _ a (Or.inr (Or.inr (Or.inr (Or.inr hfa))))]
          · have hm2 := eq_false_of_ne_true hm
            have hc2 := eq_false_of_ne_true hc
            have ht2 : a.has_ann_token = true := by
              cases hv : a.has_ann_token
              · exact absurd hv ht
              · rfl
            have ha2 := eq_false_of_ne_true ha
            have hfa2 := eq_false_of_ne_true hfa
            rw [supplement_one_active comps a hm2 hc2 ht2 ha2 hfa2]
            cases hl : component_name_index_lookup comps (clean_name_key a.file_base) with
            | none =>
              rw [supplement_one_active comps a hm2 hc2 ht2 ha2 hfa2, hl]
            | some mpid =>
              rw [supplement_one_active _ a hm2 hc2 ht2 ha2 hfa2]
              have hupd : ∀ c : ComponentNode,
                  ((fun c => if c.product_id == mpid then
                    { c with anns := merge_file_anns c.anns (all_file_anns a.data) }
                  else c) c).product_id = c.product_id
                  ∧ ((fun c => if c.product_id == mpid then
                    { c with anns := merge_file_anns c.anns (all_file_anns a.data) }
                  else c) c).name = c.name := by
                intro c
                by_cases hcp : c.product_id == mpid <;> simp [hcp]
              rw [component_name_index_lookup_map comps _ hupd, hl]
              dsimp only
              rw [List.map_map]
              congr 1
              funext c
              by_cases hcp : (c.product_id == mpid) = true
              · simp only [Function.comp_apply, hcp, if_true, if_pos]
                simp [merge_file_anns_idem]
              · simp only [Function.comp_apply, hcp]
                simp [hcp]

/-- C6: the auxiliary-document merge skips every candidate whose
`(name, description)` pair is already on the matched component, so
reprocessing the same auxiliary document leaves the component list
unchanged, and an annotation contributed identically by two merges into a
component that lacked it ends up stored exactly once. -/
theorem c6_aux_merge_idempotent_unique (comps : List ComponentNode) (a : AuxDoc)
    (ex c1 c2 : List Ann) (x : Ann)
    (h0 : ex.count x = 0) (hmem : x ∈ c1 ∨ x ∈ c2) :
    supplement_one (supplement_one comps a) a = supplement_one comps a
    ∧ (merge_file_anns (merge_file_anns ex c1) c2).count x = 1 := by
  refine ⟨supplement_one_idem comps a, ?_⟩
  by_cases hx1 : x ∈ c1
  · have h1 : (merge_file_anns ex c1).count x = 1 := by
      rw [count_merge_file_anns]
      simp [h0, hx1]
    rw [count_merge_file_anns, h1]
    simp
  · have h1 : (merge_file_anns ex c1).count x = 0 := by
      rw [count_merge_file_anns]
      simp [h0, hx1]
    have hx2 : x ∈ c2 := hmem.resolve_left hx1
    rw [count_merge_file_anns, h1]
    simp [hx2]

/-- Witness for C6: the `Bearing-1` auxiliary document is idempotent on the
`Bearing` component, and the pair `("Torque", "10 Nm")` contributed by two
identical candidate lists is stored exactly once. -/
theorem c6_witness :
    supplement_one (supplement_one c6w_comps c6w_aux) c6w_aux
        = supplement_one c6w_comps c6w_aux
    ∧ (merge_file_anns (merge_file_anns [] [⟨"Torque", "10 Nm"⟩])
        [⟨"Torque", "10 Nm"⟩]).count ⟨"Torque", "10 Nm"⟩ = 1 :=
  c6_aux_merge_idempotent_unique c6w_comps c6w_aux [] [⟨"Torque", "10 Nm"⟩]
    [⟨"Torque", "10 Nm"⟩] ⟨"Torque", "10 Nm"⟩ (by decide) (Or.inl (by decide))

/-- Length of the phase trace: two primary phases, `n` auxiliary documents,
one tree build. -/
theorem parse_batch_trace_length (n : Nat) : (parse_batch_trace n).length = n + 3 := by
  simp [parse_batch_trace]

/-- The primary records phase sits at position 0. -/
theorem trace_getElem_records (n : Nat) (h : 0 < (parse_batch_trace n).length) :
    (parse_batch_trace n)[0] = PhaseEv.records := rfl

/-- The primary edges phase sits at position 1. -/
theorem trace_getElem_edges (n : Nat) (h : 1 < (parse_batch_trace n).length) :
    (parse_batch_trace n)[1] = PhaseEv.edges := rfl

/-- The `i`-th auxiliary document sits at position `i + 2`. -/
theorem trace_getElem_aux (n i : Nat) (hi : i < n)
    (h : i + 2 < (parse_batch_trace n).length) :
    (parse_batch_trace n)[i + 2] = PhaseEv.auxDoc i := by
  unfold parse_batch_trace
  rw [List.getElem_append_left (by simp; omega)]
  rw [List.getElem_append_right (by simp)]
  simp [hi]

/-- The tree build sits at position `n + 2`, after every auxiliary
document. -/
theorem trace_getElem_tree (n : Nat) (h : n + 2 < (parse_batch_trace n).length) :
    (parse_batch_trace n)[n + 2] = PhaseEv.treeBuild := by
  unfold parse_batch_trace
  rw [List.getElem_append_right (by simp)]
  simp

/-- C7 (amended): on every successful run the primary document's records
and edges are fully resolved before any auxiliary document is considered,
and the auxiliary documents are processed in discovery order; the tree
skeleton, however, is built only *after* all auxiliary documents (the
claim's placement of the skeleton before the supplementer is refuted by the
counterexample). -/
theorem c7_amended (n : Nat) :
    (∀ i, i < n →
      phase_precedes (parse_batch_trace n) .records (.auxDoc i)
      ∧ phase_precedes (parse_batch_trace n) .edges (.auxDoc i)
      ∧ phase_precedes (parse_batch_trace n) (.auxDoc i) .treeBuild)
    ∧ (∀ i j, i < j → j < n →
      phase_precedes (parse_batch_trace n) (.auxDoc i) (.auxDoc j)) := by
  have hlen := parse_batch_trace_length n
  constructor
  · intro i hi
    refine ⟨⟨⟨0, by rw [hlen]; omega⟩, ⟨i + 2, by rw [hlen]; omega⟩, by simp, ?_, ?_⟩,
      ⟨⟨1, by rw [hlen]; omega⟩, ⟨i + 2, by rw [hlen]; omega⟩, by simp, ?_, ?_⟩,
      ⟨⟨i + 2, by rw [hlen]; omega⟩, ⟨n + 2, by rw [hlen]; omega⟩, by simp [hi], ?_, ?_⟩⟩
    · simp [List.get_eq_getElem, trace_getElem_records]
    · simp only [List.get_eq_getElem]
      exact trace_getElem_aux n i hi _
    · simp [List.get_eq_getElem, trace_getElem_edges]
    · simp only [List.get_eq_getElem]
      exact trace_getElem_aux n i hi _
    · simp only [List.get_eq_getElem]
      exact trace_getElem_aux n i hi _
    · simp only [List.get_eq_getElem]
      exact trace_getElem_tree n _
  · intro i j hij hj
    refine ⟨⟨i + 2, by rw [hlen]; omega⟩, ⟨j + 2, by rw [hlen]; omega⟩, by simp [hij], ?_, ?_⟩
    · simp only [List.get_eq_getElem]
      exact trace_getElem_aux n i (by omega) _
    · simp only [List.get_eq_getElem]
      exact trace_getElem_aux n j hj _

/-- Witness for the amended C7 at one auxiliary document. -/
theorem c7_amended_witness :
    phase_precedes (parse_batch_trace 1) .records (.auxDoc 0)
    ∧ phase_precedes (parse_batch_trace 1) .edges (.auxDoc 0)
    ∧ phase_precedes (parse_batch_trace 1) (.auxDoc 0) .treeBuild :=
  (c7_amended 1).1 0 (by omega)

/-- The lookup fold skips every non-matching component. -/
theorem find_by_orig_fold_skip (k : String) :
    ∀ (t : List ComponentNode) (acc : Option ComponentNode),
      (∀ x ∈ t, x.original_product_id ≠ k) →
      t.foldl (fun acc c => if c.original_product_id = k then some c else acc) acc = acc := by
  intro t
  induction t with
  | nil => intro acc _; rfl
  | cons d t ih =>
    intro acc h
    simp only [List.foldl_cons]
    rw [if_neg (h d (List.mem_cons_self d t))]
    exact ih acc (fun x hx => h x (List.mem_cons_of_mem d hx))

/-- When original product ids are unique (they are dict keys in the primary
document), the last-match lookup finds exactly the component itself. -/
theorem find_by_orig_eq (comps : List ComponentNode) (c : ComponentNode)
    (hnd : (comps.map (fun x => x.original_product_id)).Nodup) (hc : c ∈ comps) :
    find_by_orig comps c.original_product_id = some c := by
  induction comps with
  | nil => cases hc
  | cons d t ih =>
    rw [List.map_cons] at hnd
    rcases List.mem_cons.mp hc with rfl | hct
    · unfold find_by_orig
      simp only [List.foldl_cons, if_pos rfl]
      apply find_by_orig_fold_skip
      intro x hx he
      exact (List.nodup_cons.mp hnd).1 (he ▸ List.mem_map_of_mem _ hx)
    · have hne : d.original_product_id ≠ c.original_product_id := by
        intro he
        exact (List.nodup_cons.mp hnd).1
          (he ▸ List.mem_map_of_mem (fun x => x.original_product_id) hct)
      unfold find_by_orig
      simp only [List.foldl_cons, if_neg hne]
      exact ih (List.nodup_cons.mp hnd).2 hct

/-- The edge list produced by the relationship loop is the in-order
resolution of the relationships. -/
theorem process_rels_eq (comps : List ComponentNode) (rels : List UsageRel) :
    process_rels comps rels = rels.filterMap (resolve_rel comps) := by
  have h : ∀ (rels : List UsageRel) (acc : List (String × String)),
      rels.foldl (fun acc r => match resolve_rel comps r with
        | some e => acc ++ [e]
        | none => acc) acc
      = acc ++ rels.filterMap (resolve_rel comps) := by
    intro rels
    induction rels with
    | nil => intro acc; simp
    | cons r t ih =>
      intro acc
      simp only [List.foldl_cons, List.filterMap_cons]
      cases hres : resolve_rel comps r with
      | none => rw [ih]
      | some e => rw [ih, List.append_assoc]; rfl
  simpa using h rels []

/-- A performed `add_child` puts the child into the parent's replayed
children list. -/
theorem mem_replay_children (es : List (String × String)) (p q : String)
    (h : (p, q) ∈ es) : q ∈ replay_children es p := by
  unfold replay_children
  exact List.mem_map_of_mem _ (List.mem_filter.mpr ⟨h, by simp⟩)

/-- C2 (amended): given document-order edges (A→B) and later (C→B), with no
later edge re-asserting a parent for B, the *last* edge wins for B's parent
pointer — B's parent is C, not A — while B is appended to *both* A's and
C's children lists (so C does not end up childless), and no conflict is
recorded anywhere: the parser state has no conflict store. -/
theorem c2_amended (comps : List ComponentNode) (l1 l2 l3 : List UsageRel)
    (A B C : ComponentNode)
    (hnd : (comps.map (fun c => c.original_product_id)).Nodup)
    (hA : A ∈ comps) (hB : B ∈ comps) (hC : C ∈ comps)
    (h3 : ∀ r ∈ l3, ∀ e, resolve_rel comps r = some e → e.2 ≠ B.product_id) :
    B.product_id ∈ replay_children (process_rels comps
        (l1 ++ [⟨A.original_product_id, B.original_product_id⟩] ++ l2
          ++ [⟨C.original_product_id, B.original_product_id⟩] ++ l3)) A.product_id
    ∧ B.product_id ∈ replay_children (process_rels comps
        (l1 ++ [⟨A.original_product_id, B.original_product_id⟩] ++ l2
          ++ [⟨C.original_product_id, B.original_product_id⟩] ++ l3)) C.product_id
    ∧ replay_parent (process_rels comps
        (l1 ++ [⟨A.original_product_id, B.original_product_id⟩] ++ l2
          ++ [⟨C.original_product_id, B.original_product_id⟩] ++ l3)) B.product_id
      = some C.product_id := by
  have hres_ab : resolve_rel comps ⟨A.original_product_id, B.original_product_id⟩
      = some (A.product_id, B.product_id) := by
    unfold resolve_rel
    rw [find_by_orig_eq comps A hnd hA, find_by_orig_eq comps B hnd hB]
  have hres_cb : resolve_rel comps ⟨C.original_product_id, B.original_product_id⟩
      = some (C.product_id, B.product_id) := by
    unfold resolve_rel
    rw [find_by_orig_eq comps C hnd hC, find_by_orig_eq comps B hnd hB]
  have hes : process_rels comps
      (l1 ++ [⟨A.original_product_id, B.original_product_id⟩] ++ l2
        ++ [⟨C.original_product_id, B.original_product_id⟩] ++ l3)
      = l1.filterMap (resolve_rel comps) ++ [(A.product_id, B.product_id)]
        ++ l2.filterMap (resolve_rel comps) ++ [(C.product_id, B.product_id)]
        ++ l3.filterMap (resolve_rel comps) := by
    rw [process_rels_eq]
    simp [List.filterMap_append, List.filterMap_cons, hres_ab, hres_cb]
  refine ⟨?_, ?_, ?_⟩
  · apply mem_replay_children
    rw [hes]
    simp
  · apply mem_replay_children
    rw [hes]
    simp
  · unfold replay_parent
    rw [hes]
    have hl3 : (l3.filterMap (resolve_rel comps)).filter
        (fun e => e.2 = B.product_id) = [] := by
      rw [List.filter_eq_nil_iff]
      intro e he
      rcases List.mem_filterMap.mp he with ⟨r, hr, hresr⟩
      simpa using h3 r hr e hresr
    simp only [List.filter_append, hl3, List.append_nil]
    have hcb : List.filter (fun e => decide (e.2 = B.product_id))
        [(C.product_id, B.product_id)] = [(C.product_id, B.product_id)] := by
      simp
    rw [hcb]
    simp only [List.map_append, List.map_cons, List.map_nil]
    rw [List.getLast?_concat]

/-- Witness for the amended C2 at the concrete components A, B, C with
edges (A→B), (C→B): B hangs under both parents and its parent pointer is
C. -/
theorem c2_amended_witness :
    "P00002" ∈ replay_children (process_rels c2_comps c2_rels) "P00001"
    ∧ "P00002" ∈ replay_children (process_rels c2_comps c2_rels) "P00003"
    ∧ replay_parent (process_rels c2_comps c2_rels) "P00002" = some "P00003" := by
  have h := c2_amended c2_comps [] [] []
    ⟨"P00001", "1", "A", []⟩ ⟨"P00002", "2", "B", []⟩ ⟨"P00003", "3", "C", []⟩
    (by decide) (by decide) (by decide) (by decide)
    (fun r hr => absurd hr (List.not_mem_nil r))
  exact h

/-- Whatever the numeric-suffix loop returns is not yet in the ledger. -/
theorem alloc_loop_fresh (used : List String) (cid : String) :
    ∀ (fuel : Nat) (uid : String) (k : Nat) (u : String),
      alloc_loop used cid fuel uid k = some u → u ∉ used := by
  intro fuel
  induction fuel with
  | zero =>
    intro uid k u h
    simp only [alloc_loop] at h
    split at h
    · cases h
    · cases h
      assumption
  | succ n ih =>
    intro uid k u h
    simp only [alloc_loop] at h
    split at h
    · exact ih _ _ u h
    · cases h
      assumption

/-- Case analysis on a successful `get_unique_id` call: either the
sanitized label is reserved — it is returned as-is and the ledger is
untouched — or the returned identifier is fresh and is appended to the
ledger. -/
theorem get_unique_id_cases (st : AllocState) (b : String) (ctx : Option String)
    (u : String) (st' : AllocState)
    (h : get_unique_id st b ctx = some (u, st')) :
    ∃ c, cleaned_label b = some c ∧
      ((c ∈ common_props ∧ u = c ∧ st' = st)
       ∨ (c ∉ common_props ∧ u ∉ st.used_ids ∧ st'.used_ids = st.used_ids ++ [u])) := by
  unfold get_unique_id at h
  cases hcs : check_id_short b with
  | none => rw [hcs] at h; cases h
  | some c0 =>
    rw [hcs] at h
    dsimp only at h
    refine ⟨if c0 = "" then "Component" else c0, by simp [cleaned_label, hcs], ?_⟩
    by_cases hres : (if c0 = "" then "Component" else c0) ∈ common_props
    · rw [if_pos hres] at h
      injection h with h1
      rw [Prod.mk.injEq] at h1
      obtain ⟨rfl, rfl⟩ := h1
      exact Or.inl ⟨hres, rfl, rfl⟩
    · rw [if_neg hres] at h
      split at h
      · cases h
      · next uid heq =>
        injection h with h1
        rw [Prod.mk.injEq] at h1
        obtain ⟨rfl, rfl⟩ := h1
        exact Or.inr ⟨hres, alloc_loop_fresh _ _ _ _ _ _ heq, rfl⟩

/-- A successful allocator call only ever grows the ledger. -/
theorem get_unique_id_subset (st : AllocState) (b : String) (ctx : Option String)
    (u : String) (st' : AllocState)
    (h : get_unique_id st b ctx = some (u, st')) :
    st.used_ids ⊆ st'.used_ids := by
  obtain ⟨c, _, hcase⟩ := get_unique_id_cases st b ctx u st' h
  rcases hcase with ⟨_, _, rfl⟩ | ⟨_, _, hst⟩
  · exact fun x hx => hx
  · rw [hst]
    exact fun x hx => List.mem_append_left _ hx

/-- Every identifier returned for a non-reserved sanitized label during a
run was not in the ledger the run started from. -/
theorem run_alloc_nonres_not_initial :
    ∀ (reqs : List AllocReq) (st : AllocState) (uids : List String) (st' : AllocState),
      run_alloc st reqs = some (uids, st') →
      ∀ (i : Nat) (hi : i < uids.length) (ri : AllocReq),
        reqs[i]? = some ri →
        is_reserved_label ri.base_id = false →
        uids.get ⟨i, hi⟩ ∉ st.used_ids := by
  intro reqs
  induction reqs with
  | nil =>
    intro st uids st' h i hi ri hri hnri
    simp only [List.get_eq_getElem]
    simp only [run_alloc] at h
    injection h with h1
    rw [Prod.mk.injEq] at h1
    obtain ⟨rfl, rfl⟩ := h1
    exact absurd hi (by simp)
  | cons r rest ih =>
    intro st uids st' h i hi ri hri hnri
    simp only [List.get_eq_getElem]
    simp only [run_alloc] at h
    cases hg : get_unique_id st r.base_id r.ctx with
    | none => rw [hg] at h; cases h
    | some p =>
      obtain ⟨u, st1⟩ := p
      rw [hg] at h
      dsimp only at h
      cases hrest : run_alloc st1 rest with
      | none => rw [hrest] at h; cases h
      | some q =>
        obtain ⟨urest, st2⟩ := q
        rw [hrest] at h
        injection h with h1
        rw [Prod.mk.injEq] at h1
        obtain ⟨h2, rfl⟩ := h1
        subst h2
        cases i with
        | zero =>
          have hri2 : r = ri := by simpa using hri
          subst hri2
          obtain ⟨c, hcl, hcase⟩ := get_unique_id_cases st r.base_id r.ctx u st1 hg
          rcases hcase with ⟨hcp, _, _⟩ | ⟨_, hfresh, _⟩
          · exfalso
            have hrt : is_reserved_label r.base_id = true := by
              unfold is_reserved_label
              rw [hcl]
              simpa using hcp
            rw [hrt] at hnri
            cases hnri
          · simpa using hfresh
        | succ ii =>
          have hii : ii < urest.length := by simpa using hi
          have hnotin1 := ih st1 urest st2 hrest ii hii ri (by simpa using hri) hnri
          have hsub := get_unique_id_subset st r.base_id r.ctx u st1 hg
          rw [List.getElem_cons_succ]
          exact fun hmem => hnotin1 (hsub hmem)

/-- Distinctness of two non-reserved allocations at positions `i < j`. -/
theorem run_alloc_distinct_lt :
    ∀ (reqs : List AllocReq) (st : AllocState) (uids : List String) (st' : AllocState),
      run_alloc st reqs = some (uids, st') →
      ∀ (i j : Nat) (hi : i < uids.length) (hj : j < uids.length), i < j →
      ∀ (ri rj : AllocReq), reqs[i]? = some ri → reqs[j]? = some rj →
      is_reserved_label ri.base_id = false → is_reserved_label rj.base_id = false →
      uids.get ⟨i, hi⟩ ≠ uids.get ⟨j, hj⟩ := by
  intro reqs
  induction reqs with
  | nil =>
    intro st uids st' h i j hi hj hij ri rj hri hrj hnri hnrj
    simp only [List.get_eq_getElem]
    simp only [run_alloc] at h
    injection h with h1
    rw [Prod.mk.injEq] at h1
    obtain ⟨rfl, rfl⟩ := h1
    exact absurd hi (by simp)
  | cons r rest ih =>
    intro st uids st' h i j hi hj hij ri rj hri hrj hnri hnrj
    simp only [List.get_eq_getElem]
    simp only [run_alloc] at h
    cases hg : get_unique_id st r.base_id r.ctx with
    | none => rw [hg] at h; cases h
    | some p =>
      obtain ⟨u, st1⟩ := p
      rw [hg] at h
      dsimp only at h
      cases hrest : run_alloc st1 rest with
      | none => rw [hrest] at h; cases h
      | some q =>
        obtain ⟨urest, st2⟩ := q
        rw [hrest] at h
        injection h with h1
        rw [Prod.mk.injEq] at h1
        obtain ⟨h2, rfl⟩ := h1
        subst h2
        cases i with
        | zero =>
          have hri2 : r = ri := by simpa using hri
          subst hri2
          cases j with
          | zero => exact absurd hij (lt_irrefl 0)
          | succ jj =>
            obtain ⟨c, hcl, hcase⟩ := get_unique_id_cases st r.base_id r.ctx u st1 hg
            rcases hcase with ⟨hcp, _, _⟩ | ⟨_, _, hst1⟩
            · exfalso
              have hrt : is_reserved_label r.base_id = true := by
                unfold is_reserved_label
                rw [hcl]
                simpa using hcp
              rw [hrt] at hnri
              cases hnri
            · have humem : u ∈ st1.used_ids := by
                rw [hst1]
                exact List.mem_append_right _ (by simp)
              have hjj : jj < urest.length := by simpa using hj
              have hfreshj := run_alloc_nonres_not_initial rest st1 urest st2 hrest jj hjj
                rj (by simpa using hrj) hnrj
              simp only [List.get_eq_getElem] at hfreshj
              rw [List.getElem_cons_zero, List.getElem_cons_succ]
              intro he
              exact hfreshj (he ▸ humem)
        | succ ii =>
          cases j with
          | zero => exact absurd hij (by omega)
          | succ jj =>
            have hii : ii < urest.length := by simpa using hi
            have hjj : jj < urest.length := by simpa using hj
            have := ih st1 urest st2 hrest ii jj hii hjj (by omega) ri rj
              (by simpa using hri) (by simpa using hrj) hnri hnrj
            simpa [List.get_eq_getElem, List.getElem_cons_succ] using this

/-- C8 (amended): within one run, any two successful calls whose
*sanitized* labels are outside the reserved structural-label set return
distinct identifiers (the collision handling being one retry with the
sanitized context token, then incrementing numeric suffixes until free),
while a call whose *sanitized* label is reserved returns the sanitized
label as-is and does not enter it into the ledger.  (A raw label like
`"Type."` that merely sanitizes *into* the reserved set behaves as
reserved — this is what the counterexample exhibits.) -/
theorem c8_amended :
    (∀ (st : AllocState) (b : String) (ctx : Option String) (c : String),
      cleaned_label b = some c → c ∈ common_props →
      get_unique_id st b ctx = some (c, st))
    ∧ (∀ (reqs : List AllocReq) (st : AllocState) (uids : List String) (st' : AllocState),
        run_alloc st reqs = some (uids, st') →
        ∀ (i j : Nat) (hi : i < uids.length) (hj : j < uids.length), i ≠ j →
        ∀ (ri rj : AllocReq), reqs[i]? = some ri → reqs[j]? = some rj →
        is_reserved_label ri.base_id = false → is_reserved_label rj.base_id = false →
        uids.get ⟨i, hi⟩ ≠ uids.get ⟨j, hj⟩) := by
  constructor
  · intro st b ctx c hcl hres
    unfold get_unique_id
    unfold cleaned_label at hcl
    cases hcs : check_id_short b with
    | none => rw [hcs] at hcl; cases hcl
    | some c0 =>
      rw [hcs] at hcl
      have hc : (if c0 = "" then "Component" else c0) = c := by simpa using hcl
      dsimp only
      rw [hc, if_pos hres]
  · intro reqs st uids st' h i j hi hj hij ri rj hri hrj hnri hnrj
    rcases Nat.lt_or_ge i j with hlt | hge
    · exact run_alloc_distinct_lt reqs st uids st' h i j hi hj hlt ri rj hri hrj hnri hnrj
    · have hlt : j < i := by omega
      exact (run_alloc_distinct_lt reqs st uids st' h j i hj hi hlt rj ri hrj hri hnrj hnri).symm

/-- Witness for the amended C8: the reserved sanitized label `"Type"` is
returned untouched without entering the ledger, and the two non-reserved
calls of a run for the label `"A"` return the distinct identifiers `"A"`
and `"A_1"`. -/
theorem c8_amended_witness :
    get_unique_id ⟨[]⟩ "Type" none = some ("Type", ⟨[]⟩)
    ∧ run_alloc ⟨[]⟩ [⟨"A", none⟩, ⟨"A", none⟩] = some (["A", "A_1"], ⟨["A", "A_1"]⟩)
    ∧ "A" ≠ "A_1" := by
  refine ⟨c8_amended.1 ⟨[]⟩ "Type" none "Type" (by decide) (by decide), by decide, ?_⟩
  have h := c8_amended.2 [⟨"A", none⟩, ⟨"A", none⟩] ⟨[]⟩ ["A", "A_1"] ⟨["A", "A_1"]⟩
    (by decide) 0 1 (by decide) (by decide) (by decide) ⟨"A", none⟩ ⟨"A", none⟩
    (by decide) (by decide) (by decide) (by decide)
  exact h

/-- The last-match lookup only ever returns a component of the list. -/
theorem find_by_orig_mem (comps : List ComponentNode) (k : String) (c : ComponentNode)
    (h : find_by_orig comps k = some c) : c ∈ comps := by
  have haux : ∀ (t : List ComponentNode) (acc : Option ComponentNode),
      t.foldl (fun acc x => if x.original_product_id = k then some x else acc) acc = some c →
      c ∈ t ∨ acc = some c := by
    intro t
    induction t with
    | nil => intro acc h; exact Or.inr h
    | cons d td ih =>
      intro acc h
      simp only [List.foldl_cons] at h
      rcases ih _ h with hmem | hacc
      · exact Or.inl (List.mem_cons_of_mem d hmem)
      · by_cases hd : d.original_product_id = k
        · rw [if_pos hd] at hacc
          injection hacc with h2
          exact Or.inl (h2 ▸ List.mem_cons_self d td)
        · rw [if_neg hd] at hacc
          exact Or.inr hacc
  rcases haux comps none h with hm | hn
  · exact hm
  · cases hn

/-- Both endpoints of every performed `add_child` are pids of components. -/
theorem process_rels_mem_pids (comps : List ComponentNode) (rels : List UsageRel)
    (e : String × String) (he : e ∈ process_rels comps rels) :
    e.1 ∈ comps.map (fun c => c.product_id) ∧ e.2 ∈ comps.map (fun c => c.product_id) := by
  rw [process_rels_eq] at he
  obtain ⟨r, _, hres⟩ := List.mem_filterMap.mp he
  unfold resolve_rel at hres
  cases hp : find_by_orig comps r.parent_product_id with
  | none =>
    rw [hp] at hres
    dsimp only at hres
    cases hres
  | some p =>
    rw [hp] at hres
    cases hc : find_by_orig comps r.child_product_id with
    | none =>
      rw [hc] at hres
      dsimp only at hres
      cases hres
    | some c =>
      rw [hc] at hres
      dsimp only at hres
      injection hres with h1
      subst h1
      exact ⟨List.mem_map_of_mem _ (find_by_orig_mem comps _ p hp),
        List.mem_map_of_mem _ (find_by_orig_mem comps _ c hc)⟩

/-- A node's replayed parent pointer is `None` exactly when it occurs in no
performed `add_child` as a child. -/
theorem replay_parent_eq_none_iff (es : List (String × String)) (q : String) :
    replay_parent es q = none ↔ q ∉ child_pids es := by
  unfold replay_parent child_pids
  constructor
  · intro h hq
    obtain ⟨e, he, heq⟩ := List.mem_map.mp hq
    have hmem : e ∈ es.filter (fun x => x.2 = q) :=
      List.mem_filter.mpr ⟨he, by simp [heq]⟩
    have hmem2 : e.1 ∈ (es.filter (fun x => x.2 = q)).map (fun x => x.1) :=
      List.mem_map_of_mem _ hmem
    rw [List.getLast?_eq_none_iff] at h
    rw [h] at hmem2
    cases hmem2
  · intro h
    have hfil : es.filter (fun x => x.2 = q) = [] := by
      rw [List.filter_eq_nil_iff]
      intro e he heq
      exact h (List.mem_map.mpr ⟨e, he, by simpa using heq⟩)
    rw [hfil]
    rfl

/-- C1 (amended): the invariant holds exactly on well-formed edge data.
When the resolved edge list makes every component but one root candidate a
child exactly once (no two edges assert the same child) and is acyclic,
the finished tree has that candidate as its unique root (the only component
with no parent), no component sits in two children lists or twice in one,
and every component is reachable from the root (uniquely, since parents are
unique).  On conflicting or cyclic data the pipeline still succeeds and the
invariant fails — see the counterexample. -/
theorem c1_amended (comps : List ComponentNode) (rels : List UsageRel) (r : ComponentNode)
    (hroot : root_candidates comps rels = [r])
    (h1 : (child_pids (process_rels comps rels)).Nodup)
    (h2 : ∀ c ∈ comps, c.product_id ≠ r.product_id →
        c.product_id ∈ child_pids (process_rels comps rels))
    (hacyc : ∀ p, ¬ Relation.TransGen
        (fun x y => (x, y) ∈ process_rels comps rels) p p) :
    build_assembly_tree comps rels = .realRoot r.product_id
    ∧ (∀ q, (child_pids (process_rels comps rels)).count q ≤ 1)
    ∧ (∀ c ∈ comps, (replay_parent (process_rels comps rels) c.product_id = none
        ↔ c.product_id = r.product_id))
    ∧ (∀ c ∈ comps, Relation.ReflTransGen
        (fun x y => (x, y) ∈ process_rels comps rels) r.product_id c.product_id) := by
  have hrmem : r ∈ root_candidates comps rels := by
    rw [hroot]
    exact List.mem_cons_self r []
  have hrprop := (List.mem_filter.mp hrmem).2
  have hrnc : r.product_id ∉ child_pids (process_rels comps rels) :=
    (of_decide_eq_true hrprop).2
  refine ⟨?_, ?_, ?_, ?_⟩
  · have hre : rels.isEmpty = false := by
      cases rels with
      | nil => rw [root_candidates_nil] at hroot; cases hroot
      | cons a t => rfl
    simp [build_assembly_tree, hre, hroot]
  · exact fun q => List.nodup_iff_count_le_one.mp h1 q
  · intro c hc
    constructor
    · intro hnone
      by_contra hne
      exact (replay_parent_eq_none_iff _ _).mp hnone (h2 c hc hne)
    · intro heq
      rw [heq]
      exact (replay_parent_eq_none_iff _ _).mpr hrnc
  · have hfin : Fintype {q // q ∈ comps.map (fun c => c.product_id)} :=
      Fintype.ofList (comps.map (fun c => c.product_id)).attach
        (fun x => List.mem_attach _ x)
    have htrans : IsTrans {q // q ∈ comps.map (fun c => c.product_id)}
        (fun a b => Relation.TransGen
          (fun x y => (x, y) ∈ process_rels comps rels) a.val b.val) :=
      ⟨fun _ _ _ hab hbc => hab.trans hbc⟩
    have hirr : IsIrrefl {q // q ∈ comps.map (fun c => c.product_id)}
        (fun a b => Relation.TransGen
          (fun x y => (x, y) ∈ process_rels comps rels) a.val b.val) :=
      ⟨fun a ha => hacyc a.val ha⟩
    have hwf : WellFounded (fun a b : {q // q ∈ comps.map (fun c => c.product_id)} =>
        Relation.TransGen (fun x y => (x, y) ∈ process_rels comps rels) a.val b.val) :=
      @Finite.wellFounded_of_trans_of_irrefl _ _ _ htrans hirr
    have hreach : ∀ b : {q // q ∈ comps.map (fun c => c.product_id)},
        Relation.ReflTransGen (fun x y => (x, y) ∈ process_rels comps rels)
          r.product_id b.val := by
      intro b
      induction b using WellFounded.induction hwf with
      | _ x ihx =>
        by_cases hx : x.val = r.product_id
        · rw [hx]
        · obtain ⟨c, hc, hcp⟩ := List.mem_map.mp x.property
          have hcs : x.val ∈ child_pids (process_rels comps rels) := by
            rw [← hcp]
            exact h2 c hc (by rw [hcp]; exact hx)
          obtain ⟨⟨p1, p2⟩, he, heq⟩ := List.mem_map.mp hcs
          have hp2 : p2 = x.val := heq
          subst hp2
          have hp1 : p1 ∈ comps.map (fun c => c.product_id) :=
            (process_rels_mem_pids comps rels (p1, x.val) he).1
          have hstep := ihx ⟨p1, hp1⟩ (Relation.TransGen.single he)
          exact hstep.tail he
    intro c hc
    exact hreach ⟨c.product_id, List.mem_map_of_mem _ hc⟩

/-- The one-edge instance A→B is acyclic: any transitive chain goes from
`P00001` to `P00002`, so no node reaches itself. -/
theorem c1w_acyclic :
    ∀ p, ¬ Relation.TransGen
      (fun x y => (x, y) ∈ process_rels c1w_comps c1w_rels) p p := by
  have hes : process_rels c1w_comps c1w_rels = [("P00001", "P00002")] := by decide
  intro p hp
  have key : ∀ x y, Relation.TransGen
      (fun a b => (a, b) ∈ process_rels c1w_comps c1w_rels) x y →
      x = "P00001" ∧ y = "P00002" := by
    intro x y h
    induction h with
    | single hstep =>
      rw [hes] at hstep
      simpa using hstep
    | tail hxy hstep ih =>
      rw [hes] at hstep
      simp only [List.mem_singleton, Prod.mk.injEq] at hstep
      exact absurd (hstep.1.symm.trans ih.2) (by decide)
  obtain ⟨h1, h2⟩ := key p p hp
  rw [h1] at h2
  exact absurd h2 (by decide)

/-- Witness for the amended C1 at the one-edge instance: A is the root and
B is reachable from it. -/
theorem c1_amended_witness :
    build_assembly_tree c1w_comps c1w_rels = .realRoot "P00001"
    ∧ Relation.ReflTransGen (fun x y => (x, y) ∈ process_rels c1w_comps c1w_rels)
        "P00001" "P00002" := by
  have h := c1_amended c1w_comps c1w_rels ⟨"P00001", "1", "A", []⟩
    (by decide) (by decide) (by decide) c1w_acyclic
  exact ⟨h.1, h.2.2.2 ⟨"P00002", "2", "B", []⟩ (by decide)⟩
